import Mathlib

/-!
A verification development for the JSON marshalling core of this
repository: the float serializer with its non-finite-value policies
(`src/serialize/per_type/float.rs`, `build.rs`), the key interning cache
front-end (`src/deserialize/pyobject.rs`), the 128-bit integer
materialization round trip (`src/deserialize/pyobject.rs`), the decode
orchestrator with its literal fast path
(`src/deserialize/deserializer.rs`), and the zstd-compressed NPZ-like
archive loaders and savers (`src/logitnpz.rs`).

Rust code is shallowly embedded: pure functions become Lean functions,
the global interning cache becomes explicit state passing, machine
integers become `Nat`/`Int`, fallible code returns `Option`/`Except`.
Collaborator modules that are not part of the sources (the option-flag
constants, the cache table internals, the general parser backend, the
singleton registry, numpy/zip bindings) are modelled from the
specification; each such definition says so in its doc comment.
-/

namespace OrjsonCore

/-! ## Float64 classification

The float serializer branches only on the classification of the double
(`is_nan`, `is_infinite`, `is_finite`) and otherwise hands the value
verbatim to the external serde formatting backend.  We therefore embed
an IEEE double as its classification together with an opaque payload
for the finite case; the decimal formatting of finite doubles lives in
the external backend and is out of scope. -/

inductive F64 : Type where
  | finite (bits : Nat) : F64
  | nan : F64
  | posInf : F64
  | negInf : F64
  deriving DecidableEq, Repr

def F64.is_nan : F64 → Bool
  | .nan => true
  | _ => false

def F64.is_infinite : F64 → Bool
  | .posInf => true
  | .negInf => true
  | _ => false

def F64.is_finite : F64 → Bool
  | .finite _ => true
  | _ => false

/-- Modelled from the spec: `crate::opt` is not among the sources.  The
spec describes option flags as an opaque bitset whose bits are
independently meaningful boolean switches, composed with bitwise OR and
tested with bitwise AND; `SANITIZE_NAN` is the bit imported and tested
by `FloatSerializer::serialize`.  Its concrete position is immaterial
to every property proved here; we fix bit 0. -/
def SANITIZE_NAN : Nat := 1

/-- A single token produced by the external serde serializer for one
float value: `serialize_unit` emits a `null` token, `serialize_f64`
emits the double verbatim (a JSON numeral for a finite double, a
literal `Infinity`/`-Infinity`/`NaN` token for a non-finite one in a
build whose output format supports those tokens). -/
inductive JsonToken : Type where
  | null : JsonToken
  | numF64 (v : F64) : JsonToken
  deriving DecidableEq, Repr

/-- `FloatSerializer::serialize` from `src/serialize/per_type/float.rs`.
The `#[cfg(yyjson_allow_inf_and_nan)]` build-time split is embedded as
the boolean parameter `allowInfNan`. -/
def FloatSerializer.serialize (allowInfNan : Bool) (opts : Nat) (value : F64) :
    Except String JsonToken :=
  if opts &&& SANITIZE_NAN != 0 && (value.is_nan || value.is_infinite) then
    .ok .null
  else
    if allowInfNan then
      .ok (.numF64 value)
    else
      if value.is_finite then
        .ok (.numF64 value)
      else
        .error "Cannot serialize Infinity or NaN"

/-- `main` from `build.rs`, restricted to the decision that sets the
`yyjson_allow_inf_and_nan` configuration: when `ORJSON_DISABLE_YYJSON`
is set in the environment the cfg is never emitted (and the build
panics, modelled as `none`, if the `yyjson` cargo feature is also
explicitly enabled); otherwise yyjson is compiled and the cfg is
emitted.  `some b` means the build completes with the capability set to
`b`. -/
def buildAllowInfNan (disableYyjsonEnvSet : Bool) (yyjsonFeatureSet : Bool) :
    Option Bool :=
  if disableYyjsonEnvSet then
    if yyjsonFeatureSet then none else some false
  else
    some true

/-! ## Key interning cache

`get_unicode_key` in `src/deserialize/pyobject.rs` is the cache
front-end; the table itself (`crate::deserialize::cache`, with
`KEY_MAP`, `AssociativeCache::entry`/`or_insert_with`, `cache_hash`) is
not among the sources and is modelled from the spec (§3 `CacheEntry`,
§4.2): a fixed-capacity table of optional `(hash, key)` slots, the slot
index derived as `hash % capacity`, a hit exactly when the slot is
occupied by an entry whose stored hash matches (no byte-level
re-comparison), and a miss overwriting whatever occupies the slot.
Member names are byte strings, embedded as `List Nat`. -/

/-- Modelled from the spec: a cache entry pairs the stored content hash
with the shared interned key; we record the key by its byte content. -/
structure CacheEntry : Type where
  hash : Nat
  key : List Nat
  deriving DecidableEq, Repr

/-- Modelled from the spec: the fixed-capacity open-addressed table; the
slot list has one optional entry per slot and is never resized. -/
structure KeyMap : Type where
  slots : List (Option CacheEntry)
  deriving DecidableEq, Repr

def KeyMap.empty (cap : Nat) : KeyMap :=
  ⟨List.replicate cap none⟩

/-- Result of one key materialization: the cache state after the call,
the byte content of the returned Key, and whether that Key was freshly
allocated (`true`) or served shared from the cache (`false`). -/
structure KeyResult : Type where
  cache : KeyMap
  content : List Nat
  fresh : Bool
  deriving DecidableEq, Repr

/-- `get_unicode_key` from `src/deserialize/pyobject.rs`, with the
spec-modelled cache made explicit: names longer than 64 bytes bypass
the cache; otherwise the table is probed at `hash % capacity`, a
matching stored hash returns the cached key with no byte comparison,
and anything else materializes a fresh key and overwrites the slot.
The hash function (`cache_hash`, not among the sources; spec: "a fast,
deterministic hash") is a parameter. -/
def get_unicode_key (hash : List Nat → Nat) (m : KeyMap) (k : List Nat) :
    KeyResult :=
  if k.length > 64 then
    ⟨m, k, true⟩
  else
    let h := hash k
    let slot := h % m.slots.length
    match m.slots.getD slot none with
    | some e =>
        if e.hash = h then
          ⟨m, e.key, false⟩
        else
          ⟨⟨m.slots.set slot (some ⟨h, k⟩)⟩, k, true⟩
    | none =>
        ⟨⟨m.slots.set slot (some ⟨h, k⟩)⟩, k, true⟩

/-- Decoding one document's member names against the cache: intern each
name in order, returning the final cache and the byte contents of the
returned Keys, in order. -/
def internDoc (hash : List Nat → Nat) (m : KeyMap) :
    List (List Nat) → KeyMap × List (List Nat)
  | [] => (m, [])
  | k :: ks =>
      let r := get_unicode_key hash m k
      let rest := internDoc hash r.cache ks
      (rest.1, r.content :: rest.2)

/-! ## 128-bit integer materialization (`parse_i128` / `parse_u128`)

`parse_i128` and `parse_u128` in `src/deserialize/pyobject.rs` render
the value with Rust's `i128::to_string`/`u128::to_string` (most
significant decimal digit first, a leading `-` for negatives, no
leading zeros, `0` for zero) and reconstruct the integer with CPython's
`PyLong_FromString` in base 10.  Both string endpoints are embedded
over byte lists (`List Nat` of ASCII codes). -/

/-- Little-endian decimal digits of `n`; `fuel` bounds the recursion
and any `fuel ≥ n` is enough. -/
def natDecDigitsRev : Nat → Nat → List Nat
  | 0, _ => []
  | fuel + 1, n => if n = 0 then [] else n % 10 :: natDecDigitsRev fuel (n / 10)

/-- Decimal rendering of a natural number as ASCII bytes, matching
Rust's unsigned `to_string`: most significant digit first, no leading
zeros, and `"0"` for zero. -/
def natToDecBytes (n : Nat) : List Nat :=
  if n = 0 then [48] else ((natDecDigitsRev n n).reverse.map (· + 48))

/-- `val.to_string()` for `val : i128` as used by `parse_i128`: a
leading `-` (byte 45) for negative values, then the decimal digits. -/
def i128ToDecBytes (n : Int) : List Nat :=
  if n < 0 then 45 :: natToDecBytes n.natAbs else natToDecBytes n.toNat

/-- `val.to_string()` for `val : u128` as used by `parse_u128`. -/
def u128ToDecBytes (n : Nat) : List Nat :=
  natToDecBytes n

def isDecDigitByte (b : Nat) : Bool :=
  48 ≤ b && b ≤ 57

/-- Accumulating base-10 parse of a run of ASCII digit bytes; any
non-digit byte rejects the input. -/
def parseDecAux : List Nat → Nat → Option Nat
  | [], acc => some acc
  | b :: bs, acc =>
      if isDecDigitByte b then parseDecAux bs (acc * 10 + (b - 48)) else none

/-- Base-10 parse of a nonempty digit string. -/
def parseDecNat (bs : List Nat) : Option Nat :=
  if bs = [] then none else parseDecAux bs 0

/-- Modelled from the spec: `PyLong_FromString` (a CPython API, not
among the sources) reconstructs an integer from decimal text — an
optional ASCII sign followed by base-10 digits ("reconstruct a 128-bit
... integer from that text", spec §4.3). -/
def pyLongFromString (bs : List Nat) : Option Int :=
  match bs with
  | [] => none
  | b :: rest =>
      if b = 45 then (parseDecNat rest).map (fun m => -(m : Int))
      else if b = 43 then (parseDecNat rest).map (fun m => (m : Int))
      else (parseDecNat (b :: rest)).map (fun m => (m : Int))

/-- `parse_i128` from `src/deserialize/pyobject.rs`: materialize an
`i128` through the decimal-text intermediate. -/
def parse_i128 (val : Int) : Option Int :=
  pyLongFromString (i128ToDecBytes val)

/-- `parse_u128` from `src/deserialize/pyobject.rs`: materialize a
`u128` through the decimal-text intermediate. -/
def parse_u128 (val : Nat) : Option Int :=
  pyLongFromString (u128ToDecBytes val)

/-! ## Value model

Decoded values are CPython objects behind pointers; we embed them by
content, with one extra constructor marking the Singleton Registry's
shared (immortal) strings, so that "freshly allocated" and "shared from
the registry" results are distinguishable.  Floats decoded from
fractional/exponent lexemes are kept as their raw lexeme, since IEEE
double conversion lives in the external backend and no claim inspects
it. -/

inductive PyObj : Type where
  | noneVal : PyObj
  | boolVal (b : Bool) : PyObj
  | intVal (n : Int) : PyObj
  | floatVal (lexeme : List Nat) : PyObj
  | str (s : List Nat) : PyObj
  | immortalStr (s : List Nat) : PyObj
  | list (xs : List PyObj) : PyObj
  | dict (entries : List (List Nat × PyObj)) : PyObj

/-- Modelled from the spec: `EMPTY_UNICODE` from `crate::typeref` (not
among the sources) is the Singleton Registry's canonical empty string
(§4.5), shared and immortal. -/
def EMPTY_UNICODE : PyObj := .immortalStr []

/-- Modelled from the spec: `unicode_from_str` from `crate::str` (not
among the sources) materializes a string value; the empty string is
served shared from the Singleton Registry ("the canonical empty
string", §2/§4.5), any other content is freshly allocated. -/
def unicode_from_str (s : List Nat) : PyObj :=
  if s = [] then EMPTY_UNICODE else .str s

/-- Mapping insert with CPython `dict` semantics: an existing key keeps
its position and gets the new value (last write wins), a new key is
appended (insertion order preserved). -/
def dictSet {α : Type} [DecidableEq α] {β : Type} :
    List (α × β) → α → β → List (α × β)
  | [], k, v => [(k, v)]
  | (k', v') :: rest, k, v =>
      if k' = k then (k, v) :: rest else (k', v') :: dictSet rest k v

/-- Decode-side error kinds, per spec §7; `crate::deserialize::error`
is not among the sources and the byte-offset payload is not inspected
by any claim, so errors are embedded by kind alone. -/
inductive DeserializeError : Type where
  | invalidUtf8 : DeserializeError
  | unexpectedToken : DeserializeError
  | unterminatedValue : DeserializeError
  | trailingData : DeserializeError
  | recursionLimit : DeserializeError
  deriving DecidableEq, Repr

/-- `DeserializeResult` from `crate::deserialize::backend`: the decoded
object and the number of input bytes consumed. -/
structure DeserializeResult : Type where
  obj : PyObj
  bytes_read : Nat

/-! ## Modelled general parser backend

`crate::deserialize::backend` is not among the sources.  Modelled from
the spec: a correct, conforming JSON tokenizer/parser over in-memory
bytes (§1/§6) that returns `(Value, bytes_consumed)` or an error, with
decode-one additionally rejecting trailing non-whitespace bytes (§4.1,
§7).  Simplifications that no claim touches: `\uXXXX` escapes are
decoded as single code points (surrogate pairs are not combined), and
object member names are recorded by byte content (key interning is the
concern of `get_unicode_key`, embedded separately). -/

def isWsByte (b : Nat) : Bool :=
  b = 32 || b = 9 || b = 10 || b = 13

def skipWs : List Nat → List Nat
  | [] => []
  | b :: bs => if isWsByte b then skipWs bs else b :: bs

def hexVal (b : Nat) : Option Nat :=
  if 48 ≤ b && b ≤ 57 then some (b - 48)
  else if 97 ≤ b && b ≤ 102 then some (b - 87)
  else if 65 ≤ b && b ≤ 70 then some (b - 55)
  else none

/-- UTF-8 encoding of a code point, used for decoded escapes. -/
def utf8Encode (n : Nat) : List Nat :=
  if n < 128 then [n]
  else if n < 2048 then [192 + n / 64, 128 + n % 64]
  else if n < 65536 then [224 + n / 4096, 128 + (n / 64) % 64, 128 + n % 64]
  else [240 + n / 262144, 128 + (n / 4096) % 64, 128 + (n / 64) % 64, 128 + n % 64]

/-- Body of a JSON string literal, after the opening quote: returns the
decoded bytes and the input remaining after the closing quote. -/
def parseStringBody : List Nat → Except DeserializeError (List Nat × List Nat)
  | [] => .error .unterminatedValue
  | 34 :: rest => .ok ([], rest)
  | 92 :: 34 :: r => (parseStringBody r).map (fun p => (34 :: p.1, p.2))
  | 92 :: 92 :: r => (parseStringBody r).map (fun p => (92 :: p.1, p.2))
  | 92 :: 47 :: r => (parseStringBody r).map (fun p => (47 :: p.1, p.2))
  | 92 :: 98 :: r => (parseStringBody r).map (fun p => (8 :: p.1, p.2))
  | 92 :: 102 :: r => (parseStringBody r).map (fun p => (12 :: p.1, p.2))
  | 92 :: 110 :: r => (parseStringBody r).map (fun p => (10 :: p.1, p.2))
  | 92 :: 114 :: r => (parseStringBody r).map (fun p => (13 :: p.1, p.2))
  | 92 :: 116 :: r => (parseStringBody r).map (fun p => (9 :: p.1, p.2))
  | 92 :: 117 :: h1 :: h2 :: h3 :: h4 :: r =>
      (match hexVal h1, hexVal h2, hexVal h3, hexVal h4 with
       | some a, some b, some c, some d =>
           (parseStringBody r).map
             (fun p => (utf8Encode (((a * 16 + b) * 16 + c) * 16 + d) ++ p.1, p.2))
       | _, _, _, _ => .error .unexpectedToken)
  | 92 :: _ => .error .unexpectedToken
  | c :: rest =>
      if c < 32 then .error .unexpectedToken
      else (parseStringBody rest).map (fun p => (c :: p.1, p.2))

/-- Longest leading run of ASCII digits. -/
def takeDigits : List Nat → List Nat × List Nat
  | [] => ([], [])
  | b :: bs =>
      if isDecDigitByte b then
        let p := takeDigits bs
        (b :: p.1, p.2)
      else ([], b :: bs)

def decOfDigits (ds : List Nat) : Nat :=
  ds.foldl (fun a b => a * 10 + (b - 48)) 0

/-- Exponent part of a numeral, after the `e`/`E` byte. -/
def parseExpTail (e : Nat) (r : List Nat) : Option (List Nat × List Nat) :=
  let sp : List Nat × List Nat :=
    match r with
    | 43 :: rr => ([43], rr)
    | 45 :: rr => ([45], rr)
    | _ => ([], r)
  let p := takeDigits sp.2
  if p.1 = [] then none else some (e :: sp.1 ++ p.1, p.2)

/-- A JSON numeral, starting at a `-` or digit byte: an integral lexeme
yields an exact integer (the Numeric Materializer's concern, §4.3), a
fractional or exponent-bearing lexeme yields a Float64 kept as its
lexeme. -/
def parseNumberBody (bs : List Nat) : Except DeserializeError (PyObj × List Nat) :=
  let sb : Bool × List Nat :=
    match bs with
    | 45 :: r => (true, r)
    | _ => (false, bs)
  let neg := sb.1
  match sb.2 with
  | [] => .error .unterminatedValue
  | b :: _ =>
      if isDecDigitByte b then
        let ip : List Nat × List Nat :=
          match sb.2 with
          | 48 :: r => ([48], r)
          | _ => takeDigits sb.2
        if ip.1 = [48] && (match ip.2 with | d :: _ => isDecDigitByte d | [] => false) then
          .error .unexpectedToken
        else
          let fp : List Nat × List Nat :=
            match ip.2 with
            | 46 :: r =>
                let p := takeDigits r
                (46 :: p.1, p.2)
            | _ => ([], ip.2)
          if fp.1 = [46] then .error .unexpectedToken
          else
            let ep : Option (List Nat × List Nat) :=
              match fp.2 with
              | 101 :: r => parseExpTail 101 r
              | 69 :: r => parseExpTail 69 r
              | _ => some ([], fp.2)
            match ep with
            | none => .error .unexpectedToken
            | some epv =>
                if fp.1 = [] && epv.1 = [] then
                  .ok (.intVal (if neg then -(decOfDigits ip.1 : Int) else (decOfDigits ip.1 : Int)), ip.2)
                else
                  .ok (.floatVal ((if neg then [45] else []) ++ ip.1 ++ fp.1 ++ epv.1), epv.2)
      else .error .unexpectedToken

mutual

/-- One JSON value, with leading whitespace skipped; `fuel` bounds the
recursion and any fuel at least twice the input length is enough. -/
def parseValue : Nat → List Nat → Except DeserializeError (PyObj × List Nat)
  | 0, _ => .error .recursionLimit
  | fuel + 1, bs =>
      match skipWs bs with
      | [] => .error .unterminatedValue
      | 110 :: 117 :: 108 :: 108 :: r => .ok (.noneVal, r)
      | 116 :: 114 :: 117 :: 101 :: r => .ok (.boolVal true, r)
      | 102 :: 97 :: 108 :: 115 :: 101 :: r => .ok (.boolVal false, r)
      | 34 :: r =>
          (match parseStringBody r with
           | .ok p => .ok (unicode_from_str p.1, p.2)
           | .error e => .error e)
      | 91 :: r =>
          (match skipWs r with
           | 93 :: r2 => .ok (.list [], r2)
           | _ => parseArrayElems fuel r [])
      | 123 :: r =>
          (match skipWs r with
           | 125 :: r2 => .ok (.dict [], r2)
           | _ => parseObjMembers fuel r [])
      | b :: r =>
          if b = 45 || isDecDigitByte b then parseNumberBody (b :: r)
          else .error .unexpectedToken

/-- Comma-separated array elements, up to the closing bracket. -/
def parseArrayElems : Nat → List Nat → List PyObj →
    Except DeserializeError (PyObj × List Nat)
  | 0, _, _ => .error .recursionLimit
  | fuel + 1, bs, acc =>
      match parseValue fuel bs with
      | .error e => .error e
      | .ok (v, r) =>
          match skipWs r with
          | 44 :: r2 => parseArrayElems fuel r2 (acc ++ [v])
          | 93 :: r2 => .ok (.list (acc ++ [v]), r2)
          | [] => .error .unterminatedValue
          | _ => .error .unexpectedToken

/-- Comma-separated object members, up to the closing brace; duplicate
member names follow JSON's last-key-wins convention (§3). -/
def parseObjMembers : Nat → List Nat → List (List Nat × PyObj) →
    Except DeserializeError (PyObj × List Nat)
  | 0, _, _ => .error .recursionLimit
  | fuel + 1, bs, acc =>
      match skipWs bs with
      | 34 :: r =>
          (match parseStringBody r with
           | .error e => .error e
           | .ok (keyBytes, r1) =>
               match skipWs r1 with
               | 58 :: r2 =>
                   (match parseValue fuel r2 with
                    | .error e => .error e
                    | .ok (v, r3) =>
                        match skipWs r3 with
                        | 44 :: r4 => parseObjMembers fuel r4 (dictSet acc keyBytes v)
                        | 125 :: r4 => .ok (.dict (dictSet acc keyBytes v), r4)
                        | [] => .error .unterminatedValue
                        | _ => .error .unexpectedToken)
               | [] => .error .unterminatedValue
               | _ => .error .unexpectedToken)
      | [] => .error .unterminatedValue
      | _ => .error .unexpectedToken

end

/-- Modelled from the spec: `crate::deserialize::backend::deserialize`
(not among the sources), the general parser backend — parse one JSON
value; in decode-next mode (`stop_when_done = true`) stop there and
report the bytes consumed, in decode-one mode additionally reject
trailing non-whitespace bytes (§4.1, §6, §7). -/
def backendDeserialize (buffer : List Nat) (stop_when_done : Bool) :
    Except DeserializeError DeserializeResult :=
  match parseValue (2 * buffer.length + 2) buffer with
  | .error e => .error e
  | .ok (v, rest) =>
      let consumed := buffer.length - rest.length
      if stop_when_done then .ok ⟨v, consumed⟩
      else if skipWs rest = [] then .ok ⟨v, consumed⟩
      else .error .trailingData

/-- `deserialize_impl` from `src/deserialize/deserializer.rs`.  Input
acquisition (`read_input_to_buf`) hands the decoder a borrowed byte
slice; the embedding starts from those bytes.  The three 2-byte
literals short-circuit only in decode-one mode: `[]` to a fresh empty
list, the brace pair (bytes 123, 125) to a fresh empty dict, `""` to
the Singleton Registry's shared empty string; everything else falls
through to the general backend. -/
def deserialize_impl (buffer : List Nat) (stop_when_done : Bool) :
    Except DeserializeError DeserializeResult :=
  if buffer.length = 2 && !stop_when_done then
    if buffer = [91, 93] then
      .ok ⟨.list [], 2⟩
    else if buffer = [123, 125] then
      .ok ⟨.dict [], 2⟩
    else if buffer = [34, 34] then
      .ok ⟨EMPTY_UNICODE, 2⟩
    else
      backendDeserialize buffer stop_when_done
  else
    backendDeserialize buffer stop_when_done

/-- `deserialize` from `src/deserialize/deserializer.rs` (decode-one). -/
def deserialize (buffer : List Nat) : Except DeserializeError PyObj :=
  (deserialize_impl buffer false).map (fun r => r.obj)

/-- `deserialize_next` from `src/deserialize/deserializer.rs`
(decode-next). -/
def deserialize_next (buffer : List Nat) :
    Except DeserializeError DeserializeResult :=
  deserialize_impl buffer true

/-! ## logitnpz archive loaders and savers (`src/logitnpz.rs`)

The zip container, the filesystem, and the numpy `.npy`
(de)serialization are external (`zip` crate, CPython, numpy); the
embedding starts from the archive's member list — `(name bytes,
payload bytes)` pairs in archive order, as enumerated by
`archive.by_index(0..archive.len())` — and keeps `npy_bytes_to_array`
as an abstract fallible conversion parameter. -/

def npySuffix : List Nat := [46, 110, 112, 121]

/-- `name.ends_with(".npy")`. -/
def endsWithNpy (name : List Nat) : Bool :=
  npySuffix.isSuffixOf name

/-- `&name[..name.len() - 4]`: the member name with its last four bytes
removed. -/
def stripNpy (name : List Nat) : List Nat :=
  name.take (name.length - 4)

/-- The member loop shared by `load_logitnpz` and
`load_logitnpz_bytes`: members whose names do not end in `.npy` are
skipped (`continue`), every other member is converted from `.npy`
bytes (a conversion failure aborts the whole load) and stored in the
result dict under the name minus its `.npy` suffix. -/
def loadNpzMembers {α : Type} (conv : List Nat → Option α) :
    List (List Nat × List Nat) → List (List Nat × α) →
    Option (List (List Nat × α))
  | [], acc => some acc
  | (name, data) :: rest, acc =>
      if endsWithNpy name then
        match conv data with
        | none => none
        | some arr => loadNpzMembers conv rest (dictSet acc (stripNpy name) arr)
      else
        loadNpzMembers conv rest acc

/-- `load_logitnpz` from `src/logitnpz.rs`, from the member list of the
already-opened archive (path handling and zip reading are external
I/O). -/
def load_logitnpz {α : Type} (conv : List Nat → Option α)
    (archive : List (List Nat × List Nat)) : Option (List (List Nat × α)) :=
  loadNpzMembers conv archive []

/-- `load_logitnpz_bytes` from `src/logitnpz.rs`; its member loop is
identical to the file loader's, only input acquisition differs. -/
def load_logitnpz_bytes {α : Type} (conv : List Nat → Option α)
    (archive : List (List Nat × List Nat)) : Option (List (List Nat × α)) :=
  loadNpzMembers conv archive []

/-! ## logitnpz save entry points: argument handling

`logitnpz_save` and `logitnpz_dumps` are vectorcall entry points; what
the claims concern is how they derive the compression level that
reaches `save_logitnpz`/`save_logitnpz_bytes`.  A Python argument is
embedded by the only tests the code applies to it: `PyLong_Check`,
and for accepted integers the `PyLong_AsLong(..) as i64` conversion. -/

inductive PyArg : Type where
  | intObj (n : Int) : PyArg
  | nonIntObj : PyArg
  deriving DecidableEq, Repr

def DEFAULT_COMPRESSION_LEVEL : Int := 3

/-- `PyLong_AsLong` (a CPython API, not among the sources), modelled
from its documented contract on a 64-bit C `long`: an integer inside
the `i64` range converts to its value; an integer outside it returns
`-1` and raises `OverflowError`.  The pair is the converted value and
whether the call raised.  The callers in `src/logitnpz.rs` never check
`PyErr_Occurred` after converting, so a raised `OverflowError` stays
pending while the entry point continues with the `-1`. -/
def PyLong_AsLong (n : Int) : Int × Bool :=
  if -(2 ^ 63) ≤ n ∧ n ≤ 2 ^ 63 - 1 then (n, false) else (-1, true)

/-- `logitnpz_save` from `src/logitnpz.rs`, up to the call of
`save_logitnpz`: fewer than two positional arguments raise a
`TypeError`; otherwise the compression level starts at the default 3,
a third positional argument replaces it through `PyLong_AsLong` only
if `PyLong_Check` accepts it, and each keyword argument named
`compression_level` likewise replaces it through `PyLong_AsLong` only
if `PyLong_Check` accepts its value.  The result is the level passed
on to `save_logitnpz` (whose zip/numpy body is external I/O) together
with whether an unchecked `OverflowError` is left pending; a
successful conversion does not clear a previously pending error. -/
def logitnpz_save_level (posArgs : List PyArg) (kwargs : List (String × PyArg)) :
    Except String (Int × Bool) :=
  if posArgs.length < 2 then
    .error "logitnpz_save() requires at least 2 arguments: path, arrays"
  else
    let s1 : Int × Bool :=
      if 3 ≤ posArgs.length then
        match posArgs.getD 2 .nonIntObj with
        | .intObj n => PyLong_AsLong n
        | .nonIntObj => (DEFAULT_COMPRESSION_LEVEL, false)
      else (DEFAULT_COMPRESSION_LEVEL, false)
    let s2 := kwargs.foldl
      (fun acc kv =>
        if kv.1 = "compression_level" then
          match kv.2 with
          | .intObj n =>
              let r := PyLong_AsLong n
              (r.1, acc.2 || r.2)
          | .nonIntObj => acc
        else acc)
      s1
    .ok s2

/-- `logitnpz_dumps` from `src/logitnpz.rs`, up to the call of
`save_logitnpz_bytes`: same compression-level handling as
`logitnpz_save`, with the level as the second positional argument. -/
def logitnpz_dumps_level (posArgs : List PyArg) (kwargs : List (String × PyArg)) :
    Except String (Int × Bool) :=
  if posArgs.length < 1 then
    .error "logitnpz_dumps() requires at least 1 argument: arrays"
  else
    let s1 : Int × Bool :=
      if 2 ≤ posArgs.length then
        match posArgs.getD 1 .nonIntObj with
        | .intObj n => PyLong_AsLong n
        | .nonIntObj => (DEFAULT_COMPRESSION_LEVEL, false)
      else (DEFAULT_COMPRESSION_LEVEL, false)
    let s2 := kwargs.foldl
      (fun acc kv =>
        if kv.1 = "compression_level" then
          match kv.2 with
          | .intObj n =>
              let r := PyLong_AsLong n
              (r.1, acc.2 || r.2)
          | .nonIntObj => acc
        else acc)
      s1
    .ok s2

/-! ## Theorems: float serializer policies (C2, C3, C4) -/

/-- C2: with neither non-finite suppression policy bit set, the float
serializer's behaviour on a non-finite input is decided by the
build-time `yyjson_allow_inf_and_nan` capability — a build with the
capability emits the value verbatim as a token, a strict-conformance
build returns a hard error — while every finite double serializes to a
JSON numeral in either build; and the default build configuration
(`ORJSON_DISABLE_YYJSON` unset) enables the capability. -/
theorem float_no_policy_build_capability (opts : Nat) (v : F64)
    (hnone : opts &&& SANITIZE_NAN = 0) :
    (v.is_finite = false →
       FloatSerializer.serialize true opts v = .ok (.numF64 v) ∧
       FloatSerializer.serialize false opts v =
         .error "Cannot serialize Infinity or NaN") ∧
    (v.is_finite = true →
       FloatSerializer.serialize true opts v = .ok (.numF64 v) ∧
       FloatSerializer.serialize false opts v = .ok (.numF64 v)) ∧
    (∀ feature : Bool, buildAllowInfNan false feature = some true) := by
  refine ⟨?_, ?_, fun feature => rfl⟩ <;> intro hv <;> cases v <;>
    simp_all [FloatSerializer.serialize, F64.is_nan, F64.is_infinite,
      F64.is_finite]

/-- C2 witness: the theorem at `opts = 0`, `v = +Infinity`. -/
theorem float_no_policy_build_capability_witness :
    FloatSerializer.serialize true 0 .posInf = .ok (.numF64 .posInf) ∧
    FloatSerializer.serialize false 0 .posInf =
      .error "Cannot serialize Infinity or NaN" :=
  (float_no_policy_build_capability 0 .posInf rfl).1 rfl

/-- C3 counterexample: the serializer recognizes no disallow-policy
option bit distinct from `SANITIZE_NAN` — no other single bit makes
every non-finite value serialize to `null`; the code tests exactly one
option bit. -/
theorem no_distinct_disallow_bit :
    ¬ ∃ d : Nat, (∃ i : Nat, d = 2 ^ i) ∧ d ≠ SANITIZE_NAN ∧
        (∀ v : F64, v.is_finite = false →
          ∀ b : Bool, FloatSerializer.serialize b d v = .ok .null) ∧
        (∀ v : F64, v.is_finite = false →
          ∀ b : Bool,
            FloatSerializer.serialize b (d ||| SANITIZE_NAN) v = .ok .null) := by
  rintro ⟨d, ⟨i, rfl⟩, hne, hall, -⟩
  have hz : (2 ^ i) &&& SANITIZE_NAN = 0 := by
    cases i with
    | zero => exact absurd rfl hne
    | succ j =>
        simp [SANITIZE_NAN, Nat.and_one_is_mod, Nat.pow_succ,
          Nat.mul_mod_left]
  have h := hall .nan rfl true
  simp [FloatSerializer.serialize, hz, F64.is_nan, F64.is_infinite] at h

/-- C3 amended: the float serializer recognizes exactly one non-finite
suppression bit, `SANITIZE_NAN` — for every non-finite value, in
either build, serialization emits `null` precisely when that bit is
set in the options, regardless of which other bits are set alongside
it (so any combination of bits including it behaves like it alone). -/
theorem sanitize_bit_sole_nonfinite_policy (b : Bool) (opts : Nat) (v : F64)
    (hnf : v.is_finite = false) :
    FloatSerializer.serialize b opts v = .ok .null ↔
      opts &&& SANITIZE_NAN ≠ 0 := by
  by_cases hz : opts &&& SANITIZE_NAN = 0 <;> cases v <;> cases b <;>
    simp_all [FloatSerializer.serialize, F64.is_nan, F64.is_infinite,
      F64.is_finite]

/-- C3 amended witness: the theorem at `b = true`, `opts` the sanitize
bit alone, `v = NaN`. -/
theorem sanitize_bit_sole_nonfinite_policy_witness :
    FloatSerializer.serialize true SANITIZE_NAN .nan = .ok .null :=
  (sanitize_bit_sole_nonfinite_policy true SANITIZE_NAN .nan rfl).mpr
    (by decide)

/-- C4: with the sanitize bit set, every NaN or infinite value
serializes to `null` (never an error) in either build, and every
finite value serializes to the same standard numeral the flag-free
options produce — the flag has no effect on finite values. -/
theorem sanitize_policy_nonfinite_null (allowInfNan : Bool) (opts : Nat)
    (v : F64) (hset : opts &&& SANITIZE_NAN ≠ 0) :
    (v.is_finite = false →
       FloatSerializer.serialize allowInfNan opts v = .ok .null) ∧
    (v.is_finite = true →
       FloatSerializer.serialize allowInfNan opts v = .ok (.numF64 v) ∧
       FloatSerializer.serialize allowInfNan opts v =
         FloatSerializer.serialize allowInfNan 0 v) := by
  constructor <;> intro hv <;> cases v <;> cases allowInfNan <;>
    simp_all [FloatSerializer.serialize, F64.is_nan, F64.is_infinite,
      F64.is_finite]

/-- C4 witness: the theorem at the sanitize bit alone and `v = NaN`. -/
theorem sanitize_policy_nonfinite_null_witness :
    FloatSerializer.serialize true SANITIZE_NAN .nan = .ok .null :=
  (sanitize_policy_nonfinite_null true SANITIZE_NAN .nan (by decide)).1 rfl

/-! ## Theorems: key interning cache (C8, C1) -/

/-- C8: a member name longer than 64 bytes bypasses the cache entirely:
the returned Key is fresh with exactly the requested content, and the
cache — its slots, hence its contents and occupancy count — is left
unchanged, for every hash function and every starting cache state. -/
theorem long_key_bypasses_cache (hash : List Nat → Nat) (m : KeyMap)
    (k : List Nat) (hlen : k.length > 64) :
    get_unicode_key hash m k = ⟨m, k, true⟩ := by
  simp [get_unicode_key, hlen]

/-- C8 witness: the theorem at a 65-byte name and a fresh 8-slot
cache. -/
theorem long_key_bypasses_cache_witness :
    get_unicode_key (fun _ => 0) (KeyMap.empty 8) (List.replicate 65 0) =
      ⟨KeyMap.empty 8, List.replicate 65 0, true⟩ :=
  long_key_bypasses_cache (fun _ => 0) (KeyMap.empty 8)
    (List.replicate 65 0) (by decide)

/-- C1 counterexample: with the spec-modelled cache (hit decided by
stored-hash equality alone, no byte re-comparison) and a hash that
collides on two distinct 1-byte names, decoding a document containing
the colliding name `[0]` before one containing `k = [1]` hands back a
cached Key whose content is `[0]`, not `k` — even though `k` has
length at most 64 and occurs in both documents. -/
theorem key_content_counterexample :
    ([1] : List Nat).length ≤ 64 ∧
    ([1] : List Nat) ∈ [([0] : List Nat), [1]] ∧
    ([1] : List Nat) ∈ [([1] : List Nat)] ∧
    ¬ (∀ p ∈ ((internDoc (fun _ => 0) (KeyMap.empty 8)
          [[0], [1]]).2).zip [[0], [1]], p.2 = [1] → p.1 = [1]) := by
  decide

/-- A cache state is coherent for a hash and a key universe `P` when
every occupied slot stores the hash of its own key's content, a key
drawn from `P`, of interning-eligible length. -/
def goodCache (hash : List Nat → Nat) (P : List Nat → Prop) (m : KeyMap) :
    Prop :=
  ∀ e : CacheEntry, some e ∈ m.slots →
    e.hash = hash e.key ∧ P e.key ∧ e.key.length ≤ 64

theorem goodCache_empty (hash : List Nat → Nat) (P : List Nat → Prop)
    (cap : Nat) : goodCache hash P (KeyMap.empty cap) := by
  intro e he
  simp [KeyMap.empty, List.mem_replicate] at he

theorem get_unicode_key_content (hash : List Nat → Nat)
    (P : List Nat → Prop) (m : KeyMap) (k : List Nat)
    (hinj : ∀ a b : List Nat, P a → P b → a.length ≤ 64 → b.length ≤ 64 →
      hash a = hash b → a = b)
    (hm : goodCache hash P m) (hk : P k) :
    (get_unicode_key hash m k).content = k ∧
    goodCache hash P (get_unicode_key hash m k).cache := by
  by_cases hlen : k.length > 64
  · simp [get_unicode_key, hlen, hm]
  · simp only [get_unicode_key, hlen, if_false]
    cases hslot : m.slots.getD (hash k % m.slots.length) none with
    | none =>
        refine ⟨rfl, ?_⟩
        intro e he
        rcases List.mem_or_eq_of_mem_set he with hmem | hnew
        · exact hm e hmem
        · cases hnew
          exact ⟨rfl, hk, Nat.not_lt.mp hlen⟩
    | some e =>
        by_cases hh : e.hash = hash k
        · have hmem : some e ∈ m.slots := by
            have hlt : hash k % m.slots.length < m.slots.length := by
              rcases Nat.eq_zero_or_pos m.slots.length with h0 | h0
              · rw [List.getD_eq_default] at hslot
                · exact absurd hslot (by simp)
                · omega
              · exact Nat.mod_lt _ h0
            rw [List.getD_eq_getElem _ _ hlt] at hslot
            exact hslot ▸ List.getElem_mem hlt
          obtain ⟨hehash, hep, helen⟩ := hm e hmem
          have : e.key = k :=
            hinj e.key k hep hk helen (by omega) (by rw [← hehash, hh])
          simp [hh, this, hm]
        · refine ⟨by simp [hh], ?_⟩
          simp only [hh, if_false]
          intro f hf
          rcases List.mem_or_eq_of_mem_set hf with hmem | hnew
          · exact hm f hmem
          · cases hnew
            exact ⟨rfl, hk, Nat.not_lt.mp hlen⟩

theorem internDoc_faithful (hash : List Nat → Nat) (P : List Nat → Prop)
    (hinj : ∀ a b : List Nat, P a → P b → a.length ≤ 64 → b.length ≤ 64 →
      hash a = hash b → a = b) :
    ∀ (d : List (List Nat)) (m : KeyMap), goodCache hash P m →
      (∀ x ∈ d, P x) →
      (internDoc hash m d).2 = d ∧ goodCache hash P (internDoc hash m d).1
  | [], m, hm, _ => ⟨rfl, hm⟩
  | k :: ks, m, hm, hd => by
      have hk : P k := hd k (by simp)
      obtain ⟨hc, hg⟩ := get_unicode_key_content hash P m k hinj hm hk
      obtain ⟨ih1, ih2⟩ := internDoc_faithful hash P hinj ks
        (get_unicode_key hash m k).cache hg (fun x hx => hd x (by simp [hx]))
      exact ⟨by simp [internDoc, hc, ih1], by simpa [internDoc] using ih2⟩

theorem zip_self_eq {α : Type} :
    ∀ (l : List α) (p : α × α), p ∈ l.zip l → p.1 = p.2
  | [], _, h => absurd h (by simp)
  | x :: xs, p, h => by
      rcases (by simpa [List.zip_cons_cons] using h) with h1 | h2
      · simp [Prod.ext_iff] at h1
        simp [h1.1, h1.2]
      · exact zip_self_eq xs p h2

/-- C1 amended: for every member name `k` of length at most 64,
decoding two documents that each contain `k`, within the lifetime of
one cache, yields Keys whose content is byte-identical to `k` at every
occurrence of `k` — provided the hash is injective on the (≤ 64-byte)
member names interned during that lifetime; a hit is still decided by
stored-hash equality alone, so under a stored-hash collision between
distinct names (see the counterexample) a cached Key of different
content can be returned instead. -/
theorem interned_key_content_faithful (hash : List Nat → Nat) (cap : Nat)
    (d1 d2 : List (List Nat)) (k : List Nat)
    (hinj : ∀ a ∈ d1 ++ d2, ∀ b ∈ d1 ++ d2, a.length ≤ 64 →
      b.length ≤ 64 → hash a = hash b → a = b)
    (_hk1 : k ∈ d1) (_hk2 : k ∈ d2) (_hklen : k.length ≤ 64) :
    (∀ p ∈ ((internDoc hash (KeyMap.empty cap) d1).2).zip d1,
        p.2 = k → p.1 = k) ∧
    (∀ p ∈ ((internDoc hash
          (internDoc hash (KeyMap.empty cap) d1).1 d2).2).zip d2,
        p.2 = k → p.1 = k) := by
  have hinj' : ∀ a b : List Nat, a ∈ d1 ++ d2 → b ∈ d1 ++ d2 →
      a.length ≤ 64 → b.length ≤ 64 → hash a = hash b → a = b :=
    fun a b ha hb => hinj a ha b hb
  obtain ⟨h1, hg1⟩ := internDoc_faithful hash (· ∈ d1 ++ d2)
    (fun a b => hinj' a b) d1 (KeyMap.empty cap)
    (goodCache_empty hash _ cap) (fun x hx => by simp [hx])
  obtain ⟨h2, _⟩ := internDoc_faithful hash (· ∈ d1 ++ d2)
    (fun a b => hinj' a b) d2 (internDoc hash (KeyMap.empty cap) d1).1
    hg1 (fun x hx => by simp [hx])
  constructor
  · intro p hp hpk
    rw [h1] at hp
    exact (zip_self_eq d1 p hp).trans hpk
  · intro p hp hpk
    rw [h2] at hp
    exact (zip_self_eq d2 p hp).trans hpk

/-- C1 amended witness: the theorem at an injective concrete hash,
documents `[[1],[2]]` and `[[1]]`, and `k = [1]`. -/
theorem interned_key_content_faithful_witness :
    (∀ p ∈ ((internDoc (fun bs => bs.foldl (fun a b => a * 256 + b + 1) 0)
          (KeyMap.empty 8) [[1], [2]]).2).zip [[1], [2]],
        p.2 = [1] → p.1 = [1]) ∧
    (∀ p ∈ ((internDoc (fun bs => bs.foldl (fun a b => a * 256 + b + 1) 0)
          (internDoc (fun bs => bs.foldl (fun a b => a * 256 + b + 1) 0)
            (KeyMap.empty 8) [[1], [2]]).1 [[1]]).2).zip [[1]],
        p.2 = [1] → p.1 = [1]) :=
  interned_key_content_faithful
    (fun bs => bs.foldl (fun a b => a * 256 + b + 1) 0) 8
    [[1], [2]] [[1]] [1] (by decide) (by decide) (by decide) (by decide)

/-! ## Theorems: 128-bit decimal round trip (C7) -/

/-- Value of a little-endian digit list. -/
def ofDigitsLE (ds : List Nat) : Nat :=
  ds.foldr (fun d a => d + 10 * a) 0

theorem parseDecAux_digits :
    ∀ (ds : List Nat) (acc : Nat), (∀ d ∈ ds, d < 10) →
      parseDecAux (ds.map (· + 48)) acc =
        some (ds.foldl (fun a d => a * 10 + d) acc)
  | [], _, _ => rfl
  | d :: ds, acc, h => by
      have hd : d < 10 := h d (by simp)
      have hdig : isDecDigitByte (d + 48) = true := by
        simp only [isDecDigitByte, Bool.and_eq_true, decide_eq_true_eq]
        omega
      have h48 : d + 48 - 48 = d := by omega
      simp only [List.map_cons, parseDecAux, hdig, if_true, h48,
        List.foldl_cons]
      exact parseDecAux_digits ds (acc * 10 + d)
        (fun x hx => h x (by simp [hx]))

theorem foldl_reverse_digits :
    ∀ (ds : List Nat) (acc : Nat),
      ds.reverse.foldl (fun a d => a * 10 + d) acc =
        acc * 10 ^ ds.length + ofDigitsLE ds
  | [], acc => by simp [ofDigitsLE]
  | d :: ds, acc => by
      simp only [List.reverse_cons, List.foldl_append,
        foldl_reverse_digits ds acc, List.foldl_cons, List.foldl_nil,
        ofDigitsLE, List.foldr_cons, List.length_cons]
      ring

theorem digitsRev_lt10 :
    ∀ (fuel n d : Nat), d ∈ natDecDigitsRev fuel n → d < 10
  | 0, _, _, h => absurd h (by simp [natDecDigitsRev])
  | fuel + 1, n, d, h => by
      by_cases hn : n = 0
      · simp [natDecDigitsRev, hn] at h
      · simp only [natDecDigitsRev, hn, if_false, List.mem_cons] at h
        rcases h with h | h
        · omega
        · exact digitsRev_lt10 fuel (n / 10) d h

theorem ofDigitsLE_digitsRev :
    ∀ (fuel n : Nat), n ≤ fuel → ofDigitsLE (natDecDigitsRev fuel n) = n
  | 0, n, h => by
      simp only [natDecDigitsRev, ofDigitsLE, List.foldr_nil]
      omega
  | fuel + 1, n, h => by
      by_cases hn : n = 0
      · simp [natDecDigitsRev, hn, ofDigitsLE]
      · have hdiv : n / 10 ≤ fuel := by
          have := Nat.div_lt_self (Nat.pos_of_ne_zero hn)
            (by norm_num : 1 < 10)
          omega
        have ih := ofDigitsLE_digitsRev fuel (n / 10) hdiv
        simp only [natDecDigitsRev, hn, if_false, ofDigitsLE,
          List.foldr_cons] at *
        rw [ih]
        omega

theorem parseDecNat_natToDecBytes (n : Nat) :
    parseDecNat (natToDecBytes n) = some n := by
  by_cases hn : n = 0
  · subst hn; rfl
  · have hne : natDecDigitsRev n n ≠ [] := by
      cases n with
      | zero => exact absurd rfl hn
      | succ m => simp [natDecDigitsRev]
    have hne' : (natDecDigitsRev n n).reverse ≠ [] := by simpa using hne
    have hlt : ∀ x ∈ (natDecDigitsRev n n).reverse, x < 10 := fun x hx =>
      digitsRev_lt10 n n x (List.mem_reverse.mp hx)
    have hmapne : (natDecDigitsRev n n).reverse.map (· + 48) ≠ [] := by
      simpa using hne'
    rw [natToDecBytes, if_neg hn, parseDecNat, if_neg hmapne,
      parseDecAux_digits _ 0 hlt]
    rw [show (natDecDigitsRev n n).reverse =
          ((natDecDigitsRev n n).reverse.reverse).reverse by simp]
    rw [foldl_reverse_digits]
    simp [ofDigitsLE_digitsRev n n le_rfl]

theorem natToDecBytes_head (n : Nat) :
    ∃ b bs, natToDecBytes n = b :: bs ∧ 48 ≤ b ∧ b ≤ 57 := by
  by_cases hn : n = 0
  · exact ⟨48, [], by simp [natToDecBytes, hn], by omega, by omega⟩
  · have hne' : (natDecDigitsRev n n).reverse ≠ [] := by
      have : natDecDigitsRev n n ≠ [] := by
        cases n with
        | zero => exact absurd rfl hn
        | succ m => simp [natDecDigitsRev]
      simpa using this
    obtain ⟨d, ds, hds⟩ := List.exists_cons_of_ne_nil hne'
    have hd : d < 10 := digitsRev_lt10 n n d
      (List.mem_reverse.mp (hds ▸ List.mem_cons_self d ds))
    exact ⟨d + 48, ds.map (· + 48),
      by rw [natToDecBytes, if_neg hn, hds]; rfl, by omega, by omega⟩

theorem pyLong_natToDecBytes (n : Nat) :
    pyLongFromString (natToDecBytes n) = some (n : Int) := by
  obtain ⟨b, bs, hb, hge, hle⟩ := natToDecBytes_head n
  have h45 : b ≠ 45 := by omega
  have h43 : b ≠ 43 := by omega
  rw [hb, pyLongFromString]
  simp only [h45, h43, if_false]
  rw [← hb, parseDecNat_natToDecBytes]
  rfl

theorem parse_i128_roundtrip (n : Int) : parse_i128 n = some n := by
  rw [parse_i128, i128ToDecBytes]
  by_cases hneg : n < 0
  · rw [if_pos hneg]
    have h := parseDecNat_natToDecBytes n.natAbs
    simp [pyLongFromString, h]
    rw [abs_of_neg hneg, neg_neg]
  · rw [if_neg hneg, pyLong_natToDecBytes]
    congr 1
    omega

/-- C7: materializing any integer in the 128-bit range through the
decimal-string intermediate — render the full decimal digits to text,
then reconstruct the integer from that text in base 10 — is lossless:
`parse_i128` round-trips every `i128` value, and `parse_u128`
round-trips every `u128` value, including the boundary values `2^63`,
`2^64 - 1`, `2^127 - 1` and `-2^127`. -/
theorem int128_decimal_roundtrip :
    (∀ n : Int, -(2 ^ 127) ≤ n → n ≤ 2 ^ 127 - 1 → parse_i128 n = some n) ∧
    (∀ m : Nat, m ≤ 2 ^ 128 - 1 → parse_u128 m = some (m : Int)) :=
  ⟨fun n _ _ => parse_i128_roundtrip n,
   fun m _ => pyLong_natToDecBytes m⟩

/-- C7 witness: the theorem at each boundary value named by the
claim. -/
theorem int128_decimal_roundtrip_witness :
    parse_i128 (2 ^ 63) = some (2 ^ 63) ∧
    parse_i128 (2 ^ 64 - 1) = some (2 ^ 64 - 1) ∧
    parse_i128 (2 ^ 127 - 1) = some (2 ^ 127 - 1) ∧
    parse_i128 (-(2 ^ 127)) = some (-(2 ^ 127)) ∧
    parse_u128 (2 ^ 128 - 1) = some ((2 ^ 128 - 1 : Nat) : Int) :=
  ⟨int128_decimal_roundtrip.1 _ (by decide) (by decide),
   int128_decimal_roundtrip.1 _ (by decide) (by decide),
   int128_decimal_roundtrip.1 _ (by decide) (by decide),
   int128_decimal_roundtrip.1 _ (by decide) (by decide),
   int128_decimal_roundtrip.2 _ (by decide)⟩

/-! ## Theorems: decode orchestrator fast path (C5, C6) -/

/-- C5: the literal fast path fires exactly when the mode is decode-one
and the whole input is one of the 2-byte sequences `[]`, the brace
pair, or `""` — returning a fresh empty list, a fresh empty dict, or
the Singleton Registry's shared canonical empty string respectively,
each with `bytes_read = 2` — while in decode-next mode, and on every
other input, the general backend is invoked instead. -/
theorem literal_fast_path_exact :
    (deserialize_impl [91, 93] false = .ok ⟨.list [], 2⟩) ∧
    (deserialize_impl [123, 125] false = .ok ⟨.dict [], 2⟩) ∧
    (deserialize_impl [34, 34] false = .ok ⟨EMPTY_UNICODE, 2⟩) ∧
    (∀ buffer : List Nat,
       deserialize_impl buffer true = backendDeserialize buffer true) ∧
    (∀ buffer : List Nat, buffer ≠ [91, 93] → buffer ≠ [123, 125] →
       buffer ≠ [34, 34] →
       deserialize_impl buffer false = backendDeserialize buffer false) := by
  refine ⟨rfl, rfl, rfl, ?_, ?_⟩
  · intro buffer
    simp [deserialize_impl]
  · intro buffer h1 h2 h3
    by_cases hl : buffer.length = 2
    · simp [deserialize_impl, hl, h1, h2, h3]
    · simp [deserialize_impl, hl]

/-- C5 witness: the theorem's backend clause at the 2-byte non-literal
input `42`. -/
theorem literal_fast_path_exact_witness :
    deserialize_impl [52, 50] false = backendDeserialize [52, 50] false :=
  literal_fast_path_exact.2.2.2.2 [52, 50] (by decide) (by decide)
    (by decide)

/-- C6: on each of the three fast-path inputs, decode-one returns
exactly the value (and byte count) the general parser backend produces
for that input — the fast path is observationally equivalent to the
backend there. -/
theorem fast_path_matches_backend :
    deserialize_impl [91, 93] false = backendDeserialize [91, 93] false ∧
    deserialize_impl [123, 125] false = backendDeserialize [123, 125] false ∧
    deserialize_impl [34, 34] false = backendDeserialize [34, 34] false :=
  ⟨rfl, rfl, rfl⟩

/-! ## Theorems: logitnpz loaders (C9) and save argument handling (C10) -/

theorem loadNpzMembers_filter {α : Type} (conv : List Nat → Option α) :
    ∀ (l : List (List Nat × List Nat)) (acc : List (List Nat × α)),
      loadNpzMembers conv l acc =
        loadNpzMembers conv (l.filter (fun m => endsWithNpy m.1)) acc
  | [], _ => rfl
  | (name, data) :: rest, acc => by
      cases hn : endsWithNpy name with
      | false =>
          simp [loadNpzMembers, hn, List.filter_cons,
            loadNpzMembers_filter conv rest acc]
      | true =>
          cases hc : conv data with
          | none => simp [loadNpzMembers, hn, hc, List.filter_cons]
          | some arr =>
              simp [loadNpzMembers, hn, hc, List.filter_cons,
                loadNpzMembers_filter conv rest
                  (dictSet acc (stripNpy name) arr)]

theorem dictSet_key_src {α : Type} [DecidableEq α] {β : Type} :
    ∀ (d : List (α × β)) (k : α) (v : β) (kv : α × β),
      kv ∈ dictSet d k v → kv.1 = k ∨ ∃ kv' ∈ d, kv.1 = kv'.1
  | [], k, v, kv, h => by
      simp [dictSet] at h
      simp [h]
  | (k', v') :: rest, k, v, kv, h => by
      by_cases hk : k' = k
      · rw [dictSet, if_pos hk] at h
        rcases (by simpa using h) with h1 | h1
        · simp [h1]
        · exact Or.inr ⟨kv, by simp [h1], rfl⟩
      · rw [dictSet, if_neg hk] at h
        rcases (by simpa using h) with h1 | h1
        · exact Or.inr ⟨(k', v'), by simp, by simp [h1]⟩
        · rcases dictSet_key_src rest k v kv h1 with h2 | ⟨kv', hkv', he⟩
          · exact Or.inl h2
          · exact Or.inr ⟨kv', by simp [hkv'], he⟩

theorem dictSet_key_mem {α : Type} [DecidableEq α] {β : Type} :
    ∀ (d : List (α × β)) (k : α) (v : β), ∃ kv ∈ dictSet d k v, kv.1 = k
  | [], k, v => ⟨(k, v), by simp [dictSet]⟩
  | (k', v') :: rest, k, v => by
      by_cases hk : k' = k
      · exact ⟨(k, v), by simp [dictSet, hk]⟩
      · obtain ⟨kv, hm, he⟩ := dictSet_key_mem rest k v
        exact ⟨kv, by simp [dictSet, hk, hm], he⟩

theorem dictSet_key_keep {α : Type} [DecidableEq α] {β : Type} :
    ∀ (d : List (α × β)) (k : α) (v : β) (K : α),
      (∃ kv ∈ d, kv.1 = K) → ∃ kv ∈ dictSet d k v, kv.1 = K
  | [], _, _, _, h => by
      obtain ⟨kv, hm, _⟩ := h
      exact absurd hm (by simp)
  | (k', v') :: rest, k, v, K, h => by
      obtain ⟨kv, hm, he⟩ := h
      by_cases hk : k' = k
      · rw [dictSet, if_pos hk]
        rcases (by simpa using hm) with h1 | h1
        · exact ⟨(k, v), by simp, by rw [← he, h1, hk]⟩
        · exact ⟨kv, by simp [h1], he⟩
      · rw [dictSet, if_neg hk]
        rcases (by simpa using hm) with h1 | h1
        · exact ⟨(k', v'), by simp, by rw [← he, h1]⟩
        · obtain ⟨kv2, hm2, he2⟩ := dictSet_key_keep rest k v K ⟨kv, h1, he⟩
          exact ⟨kv2, by simp [hm2], he2⟩

theorem loadNpzMembers_keys {α : Type} (conv : List Nat → Option α) :
    ∀ (l : List (List Nat × List Nat)) (acc : List (List Nat × α))
      (d : List (List Nat × α)), loadNpzMembers conv l acc = some d →
      ∀ kv ∈ d, (∃ kv' ∈ acc, kv.1 = kv'.1) ∨
        ∃ m ∈ l, endsWithNpy m.1 = true ∧ kv.1 = stripNpy m.1
  | [], acc, d, h, kv, hkv => by
      simp only [loadNpzMembers, Option.some.injEq] at h
      subst h
      exact Or.inl ⟨kv, hkv, rfl⟩
  | (name, data) :: rest, acc, d, h, kv, hkv => by
      cases hn : endsWithNpy name with
      | false =>
          simp only [loadNpzMembers, hn, Bool.false_eq_true, if_false] at h
          rcases loadNpzMembers_keys conv rest acc d h kv hkv with
            h1 | ⟨m, hm, hmn, he⟩
          · exact Or.inl h1
          · exact Or.inr ⟨m, by simp [hm], hmn, he⟩
      | true =>
          simp only [loadNpzMembers, hn, if_true] at h
          cases hc : conv data with
          | none => rw [hc] at h; cases h
          | some arr =>
              rw [hc] at h
              rcases loadNpzMembers_keys conv rest
                  (dictSet acc (stripNpy name) arr) d h kv hkv with
                ⟨kv', hkv', he⟩ | ⟨m, hm, hmn, he⟩
              · rcases dictSet_key_src acc (stripNpy name) arr kv' hkv' with
                  h1 | ⟨kv'', hkv'', he2⟩
                · exact Or.inr ⟨(name, data), by simp, hn, he.trans h1⟩
                · exact Or.inl ⟨kv'', hkv'', he.trans he2⟩
              · exact Or.inr ⟨m, by simp [hm], hmn, he⟩

theorem loadNpzMembers_key_persist {α : Type} (conv : List Nat → Option α) :
    ∀ (l : List (List Nat × List Nat)) (acc : List (List Nat × α))
      (d : List (List Nat × α)) (K : List Nat),
      loadNpzMembers conv l acc = some d →
      (∃ kv ∈ acc, kv.1 = K) → ∃ kv ∈ d, kv.1 = K
  | [], acc, d, K, h, hacc => by
      simp only [loadNpzMembers, Option.some.injEq] at h
      subst h
      exact hacc
  | (name, data) :: rest, acc, d, K, h, hacc => by
      cases hn : endsWithNpy name with
      | false =>
          simp only [loadNpzMembers, hn, Bool.false_eq_true, if_false] at h
          exact loadNpzMembers_key_persist conv rest acc d K h hacc
      | true =>
          simp only [loadNpzMembers, hn, if_true] at h
          cases hc : conv data with
          | none => rw [hc] at h; cases h
          | some arr =>
              rw [hc] at h
              exact loadNpzMembers_key_persist conv rest _ d K h
                (dictSet_key_keep acc (stripNpy name) arr K hacc)

theorem loadNpzMembers_complete {α : Type} (conv : List Nat → Option α) :
    ∀ (l : List (List Nat × List Nat)) (acc : List (List Nat × α))
      (d : List (List Nat × α)), loadNpzMembers conv l acc = some d →
      ∀ m ∈ l, endsWithNpy m.1 = true → ∃ kv ∈ d, kv.1 = stripNpy m.1
  | [], _, _, _, m, hm, _ => absurd hm (by simp)
  | (name, data) :: rest, acc, d, h, m, hm, hmn => by
      cases hn : endsWithNpy name with
      | false =>
          simp only [loadNpzMembers, hn, Bool.false_eq_true, if_false] at h
          rcases (by simpa using hm :
              m = (name, data) ∨ m ∈ rest) with rfl | hm'
          · exact absurd hmn (by simp [hn])
          · exact loadNpzMembers_complete conv rest acc d h m hm' hmn
      | true =>
          simp only [loadNpzMembers, hn, if_true] at h
          cases hc : conv data with
          | none => rw [hc] at h; cases h
          | some arr =>
              rw [hc] at h
              rcases (by simpa using hm :
                  m = (name, data) ∨ m ∈ rest) with rfl | hm'
              · exact loadNpzMembers_key_persist conv rest _ d
                  (stripNpy name) h (dictSet_key_mem acc (stripNpy name) arr)
              · exact loadNpzMembers_complete conv rest _ d h m hm' hmn

/-- C9: both archive loaders build their Mapping only from members
whose names end in `.npy` — every other member is skipped without
error, exactly as if the archive had been filtered — and on success
every entry's key is a member name with its trailing 4-byte `.npy`
suffix removed, with every `.npy` member contributing its stripped
name as a key. -/
theorem npz_loaders_npy_only {α : Type} (conv : List Nat → Option α)
    (archive : List (List Nat × List Nat)) :
    (load_logitnpz conv archive =
       load_logitnpz conv (archive.filter (fun m => endsWithNpy m.1))) ∧
    (load_logitnpz_bytes conv archive = load_logitnpz conv archive) ∧
    (∀ d, load_logitnpz conv archive = some d →
       (∀ kv ∈ d, ∃ m ∈ archive, endsWithNpy m.1 = true ∧
          kv.1 = stripNpy m.1) ∧
       (∀ m ∈ archive, endsWithNpy m.1 = true →
          ∃ kv ∈ d, kv.1 = stripNpy m.1)) := by
  refine ⟨loadNpzMembers_filter conv archive [], rfl, ?_⟩
  intro d hd
  constructor
  · intro kv hkv
    rcases loadNpzMembers_keys conv archive [] d hd kv hkv with
      ⟨kv', hkv', _⟩ | h
    · exact absurd hkv' (by simp)
    · exact h
  · intro m hm hmn
    exact loadNpzMembers_complete conv archive [] d hd m hm hmn

/-- C9 witness: the theorem's success clause at a two-member archive
holding `a.npy` and a non-`.npy` member `b`, with a total
conversion. -/
theorem npz_loaders_npy_only_witness :
    (∀ kv ∈ [(([97] : List Nat), (0 : Nat))],
       ∃ m ∈ [(([97, 46, 110, 112, 121] : List Nat), ([7] : List Nat)),
              ([98], [8])],
         endsWithNpy m.1 = true ∧ kv.1 = stripNpy m.1) ∧
    (∀ m ∈ [(([97, 46, 110, 112, 121] : List Nat), ([7] : List Nat)),
            ([98], [8])],
       endsWithNpy m.1 = true →
       ∃ kv ∈ [(([97] : List Nat), (0 : Nat))], kv.1 = stripNpy m.1) :=
  (npz_loaders_npy_only (fun _ => some 0)
    [([97, 46, 110, 112, 121], [7]), ([98], [8])]).2.2 [([97], 0)] rfl

/-- C10: in both save entry points, the compression-level argument —
positional or keyword — is honored only when `PyLong_Check` accepts
the object: an integer level `n` in C-long range replaces the default
through `PyLong_AsLong`, and every non-integer level object is
silently ignored and the default level 3 is used, with no error raised
either way (an integer outside C-long range instead converts to `-1`
with a pending `OverflowError`, as the source's unchecked
`PyLong_AsLong` dictates). -/
theorem compression_level_int_only (p a : PyArg) (n : Int)
    (hrange : -(2 ^ 63) ≤ n ∧ n ≤ 2 ^ 63 - 1) :
    (logitnpz_save_level [p, a, .nonIntObj] [] = .ok (3, false)) ∧
    (logitnpz_save_level [p, a, .intObj n] [] = .ok (n, false)) ∧
    (logitnpz_save_level [p, a]
       [("compression_level", .nonIntObj)] = .ok (3, false)) ∧
    (logitnpz_save_level [p, a]
       [("compression_level", .intObj n)] = .ok (n, false)) ∧
    (logitnpz_dumps_level [a, .nonIntObj] [] = .ok (3, false)) ∧
    (logitnpz_dumps_level [a, .intObj n] [] = .ok (n, false)) ∧
    (logitnpz_dumps_level [a]
       [("compression_level", .nonIntObj)] = .ok (3, false)) ∧
    (logitnpz_dumps_level [a]
       [("compression_level", .intObj n)] = .ok (n, false)) := by
  refine ⟨rfl, ?_, rfl, ?_, rfl, ?_, rfl, ?_⟩ <;>
    simp [logitnpz_save_level, logitnpz_dumps_level, PyLong_AsLong,
      hrange] <;>
    omega

/-- C10 witness: the theorem at non-integer path/arrays objects and
the in-range level 5. -/
theorem compression_level_int_only_witness :
    (logitnpz_save_level [.nonIntObj, .nonIntObj, .intObj 5] [] =
       .ok (5, false)) ∧
    (logitnpz_save_level [.nonIntObj, .nonIntObj]
       [("compression_level", .nonIntObj)] = .ok (3, false)) ∧
    (logitnpz_dumps_level [.nonIntObj]
       [("compression_level", .intObj 5)] = .ok (5, false)) :=
  ⟨(compression_level_int_only .nonIntObj .nonIntObj 5 (by decide)).2.1,
   (compression_level_int_only .nonIntObj .nonIntObj 5 (by decide)).2.2.1,
   (compression_level_int_only .nonIntObj .nonIntObj 5
     (by decide)).2.2.2.2.2.2.2⟩

end OrjsonCore
